import Mathlib

/-!
Shallow embedding of the Exameye backend consistency subsystem:
the violation↔exam linkage trigger (`validate_violation_exam_student_consistency`),
the batch repair function (`fix_violations_exam_links`), the aggregation
materialized view (`violations_by_exam_student`), and the browser-side
single-tab detector (`checkSingleTab` in `CompatibilityCheck.tsx`).

SQL semantics notes: nullable columns are `Option`; SQL `x = y` with a NULL
operand is not satisfied, so `EXISTS (... WHERE col = val)` filters require
`some`-equality; `SELECT ... INTO` with no row yields NULL; `ORDER BY ... LIMIT 1`
is embedded as a fold selecting a maximal element of the ORDER BY relation.
-/

namespace Exameye

/-- Status column of `public.exams`. -/
inductive ExamStatus where
  | not_started
  | in_progress
  | completed
  | abandoned
deriving DecidableEq, Repr

/-- A row of `public.exams`.  `student_id` is nullable at the SQL level,
timestamps are modelled as integers. -/
structure Exam where
  id : Nat
  student_id : Option Nat
  status : ExamStatus
  started_at : Option Int
  completed_at : Option Int
  created_at : Int
deriving DecidableEq, Repr

/-- A row of `public.violations` (the columns the trigger and repair
function read or write). -/
structure Violation where
  id : Nat
  exam_id : Option Nat
  student_id : Option Nat
  violation_type : String
  timestamp : Int
deriving DecidableEq, Repr

/-- A row of `public.students` (columns the aggregation view reads). -/
structure Student where
  id : Nat
  name : String
deriving DecidableEq, Repr

/-- `SELECT ... FROM public.exams WHERE id = eid` (primary-key lookup). -/
def findExam (exams : List Exam) (eid : Nat) : Option Exam :=
  exams.find? (fun e => e.id = eid)

/-- The `EXISTS (SELECT 1 FROM public.exams WHERE id = eid AND student_id = sid)`
check of the trigger; SQL equality requires the column to be non-NULL. -/
def examMatches (exams : List Exam) (eid sid : Nat) : Bool :=
  exams.any (fun e => e.id = eid && e.student_id = some sid)

/-- `ORDER BY started_at DESC NULLS LAST, created_at DESC` of the trigger's
legacy reverse-lookup: `a` sorts strictly before `b`. -/
def resolvePrecedes (a b : Exam) : Bool :=
  match a.started_at, b.started_at with
  | some x, some y =>
      if x = y then a.created_at > b.created_at else x > y
  | some _, none => true
  | none, some _ => false
  | none, none => a.created_at > b.created_at

/-- `ORDER BY <precedes> LIMIT 1`: fold keeping the earliest-sorting element
seen so far (ties keep the first, as any one row may be returned). -/
def pickFirst (precedes : α → α → Bool) : List α → Option α
  | [] => none
  | x :: xs => some (xs.foldl (fun b c => if precedes c b then c else b) x)

/-- Candidate rows of the trigger's reverse lookup:
`WHERE student_id = NEW.student_id AND status IN ('in_progress','completed')`. -/
def resolveCandidates (exams : List Exam) (sid : Nat) : List Exam :=
  exams.filter (fun e =>
    e.student_id = some sid &&
      (e.status = ExamStatus.in_progress || e.status = ExamStatus.completed))

/-- The trigger's best-effort `exam_id` resolution when only `student_id`
is present (lines 48-56 of the consistency migration). -/
def resolveExamId (exams : List Exam) (sid : Nat) : Option Exam :=
  pickFirst resolvePrecedes (resolveCandidates exams sid)

/-- The exception raised by `validate_violation_exam_student_consistency`:
`Violation student_id (%) does not match the student_id of exam (%)`. -/
inductive LinkageError where
  | linkageMismatch (student_id exam_id : Nat)
deriving DecidableEq, Repr

/-- `validate_violation_exam_student_consistency()`: BEFORE INSERT OR UPDATE
trigger body.  Returns the (possibly auto-filled) NEW row, or the raised
exception.  The three IF-branches of the source are mutually exclusive on the
incoming row, so they are rendered as a match on `(exam_id, student_id)`. -/
def validate_violation_exam_student_consistency (exams : List Exam) (n : Violation) :
    Except LinkageError Violation :=
  match n.exam_id, n.student_id with
  | some eid, some sid =>
      if examMatches exams eid sid then Except.ok n
      else Except.error (LinkageError.linkageMismatch sid eid)
  | some eid, none =>
      Except.ok { n with student_id := (findExam exams eid).bind (·.student_id) }
  | none, some sid =>
      Except.ok { n with exam_id := (resolveExamId exams sid).map (·.id) }
  | none, none => Except.ok n

/-- The database state the claims range over. -/
structure DB where
  exams : List Exam
  violations : List Violation
deriving DecidableEq, Repr

def DB.empty : DB := ⟨[], []⟩

/-- Operations that touch the two tables: exam creation, session-lifecycle
updates (status / timestamps only; `student_id` is immutable per the data
model), and violation writes, which pass through the trigger. -/
inductive Op where
  | createExam (e : Exam)
  | updateExamLifecycle (eid : Nat) (st : ExamStatus) (sa ca : Option Int)
  | insertViolation (v : Violation)
  | updateViolation (v : Violation)
deriving Repr

/-- One committed operation.  A violation write whose trigger raises commits
nothing (the transaction aborts, leaving the state unchanged).  `createExam`
with a duplicate id is rejected by the primary key. -/
def applyOp (db : DB) : Op → DB
  | Op.createExam e =>
      if db.exams.any (fun x => x.id = e.id) then db
      else { db with exams := e :: db.exams }
  | Op.updateExamLifecycle eid st sa ca =>
      { db with exams := db.exams.map (fun x =>
          if x.id = eid then { x with status := st, started_at := sa, completed_at := ca }
          else x) }
  | Op.insertViolation v =>
      match validate_violation_exam_student_consistency db.exams v with
      | Except.ok v' => { db with violations := v' :: db.violations }
      | Except.error _ => db
  | Op.updateViolation v =>
      match validate_violation_exam_student_consistency db.exams v with
      | Except.ok v' => { db with violations := db.violations.map (fun x =>
          if x.id = v.id then v' else x) }
      | Except.error _ => db

def applyOps (ops : List Op) : DB := ops.foldl applyOp DB.empty

/-- Invariant I1: a violation row with both link fields set points at an exam
row owned by that very student. -/
def I1 (db : DB) : Prop :=
  ∀ v ∈ db.violations, ∀ eid sid, v.exam_id = some eid → v.student_id = some sid →
    ∃ e ∈ db.exams, e.id = eid ∧ e.student_id = some sid

/-! ### Reconciliation Job: `fix_violations_exam_links()` -/

/-- SQL equality on two nullable columns: true only when both are non-NULL
and equal. -/
def optEq (a b : Option Nat) : Bool :=
  match a, b with
  | some x, some y => x = y
  | _, _ => false

/-- `v_record.timestamp >= e.started_at AND v_record.timestamp <=
COALESCE(e.completed_at, NOW())`; NULL `started_at` makes the comparison
unknown, hence false. -/
def inWindow (ts now : Int) (e : Exam) : Bool :=
  match e.started_at with
  | some st => ts ≥ st && ts ≤ (e.completed_at.getD now)
  | none => false

/-- `SELECT id FROM public.exams WHERE student_id = ? ORDER BY created_at
DESC LIMIT 1` (the fallback's inner subquery). -/
def mostRecentByCreated (exams : List Exam) (sid : Option Nat) : Option Exam :=
  pickFirst (fun a b => a.created_at > b.created_at)
    (exams.filter (fun e => optEq e.student_id sid))

/-- WHERE clause of the backfill subquery: the student's exams that either
contain the violation timestamp in their active window, or have NULL
`started_at` and are the student's most recent exam by `created_at`. -/
def backfillCandidates (exams : List Exam) (sid : Option Nat) (ts now : Int) :
    List Exam :=
  exams.filter (fun e =>
    optEq e.student_id sid &&
      (inWindow ts now e ||
        (e.started_at = none &&
          (mostRecentByCreated exams sid).map (·.id) = some e.id)))

/-- `ORDER BY CASE WHEN <in window> THEN 1 ELSE 2 END, started_at DESC NULLS
LAST` of the backfill subquery: `a` sorts strictly before `b`. -/
def backfillPrecedes (ts now : Int) (a b : Exam) : Bool :=
  let ra : Nat := if inWindow ts now a then 1 else 2
  let rb : Nat := if inWindow ts now b then 1 else 2
  if ra = rb then
    match a.started_at, b.started_at with
    | some x, some y => x > y
    | some _, none => true
    | none, some _ => false
    | none, none => false
  else ra < rb

/-- The scalar subquery assigned to `exam_id` in the backfill UPDATE
(lines 100-123 of the consistency migration); NULL when no candidate. -/
def backfillTarget (exams : List Exam) (sid : Option Nat) (ts now : Int) :
    Option Nat :=
  (pickFirst (backfillPrecedes ts now)
    (backfillCandidates exams sid ts now)).map (·.id)

/-- The `exam_id` a backfilled row ends up with.  The BEFORE UPDATE trigger
fires on the backfill UPDATE itself: when the ranked subquery produced a
candidate the trigger's consistency check passes and the value stands; when
it produced NULL the row reaches the trigger with `exam_id IS NULL AND
student_id IS NOT NULL`, so the trigger's legacy branch (lines 48-56)
resolves the student's most recent `in_progress`/`completed` exam. -/
def backfillResolved (exams : List Exam) (sid : Nat) (ts now : Int) :
    Option Nat :=
  match backfillTarget exams (some sid) ts now with
  | some eid => some eid
  | none => (resolveExamId exams sid).map (·.id)

/-- `SELECT student_id FROM public.exams WHERE id = ?` with a nullable
argument (pass 2's SET subquery). -/
def examOwner (exams : List Exam) (oeid : Option Nat) : Option Nat :=
  match oeid with
  | some eid => (findExam exams eid).bind (·.student_id)
  | none => none

/-- `EXISTS (SELECT 1 FROM public.exams e WHERE e.id = v.exam_id AND
e.student_id = v.student_id)` over nullable violation columns. -/
def examLinked (exams : List Exam) (v : Violation) : Bool :=
  exams.any (fun e => some e.id = v.exam_id && optEq e.student_id v.student_id)

/-- Effect of one backfill-loop UPDATE on one stored row: `SET exam_id =
(subquery) WHERE id = v_record.id AND exam_id IS NULL`.  The row written by
the UPDATE then passes through the BEFORE UPDATE trigger
(`trigger_validate_violation_exam_student` fires `FOR EACH ROW` on every
UPDATE of `public.violations`, the reconciliation job's own UPDATEs
included), which may fill a still-NULL `exam_id` via its legacy branch.  A
raised exception would abort the whole run; it cannot fire on backfill rows
(the assigned candidate is always owned by the row's student, see
`pass1Apply_hit`), so that branch keeps the row for totality. -/
def pass1Apply (exams : List Exam) (now : Int) (r x : Violation) : Violation :=
  if x.id = r.id && x.exam_id = none then
    match validate_violation_exam_student_consistency exams
        { x with exam_id := backfillTarget exams r.student_id r.timestamp now } with
    | Except.ok x' => x'
    | Except.error _ => x
  else x

/-- One iteration of the backfill loop: run the conditional UPDATE, then
`IF FOUND THEN v_fixed += 1 ELSE v_skipped += 1`.  `FOUND` is whether the
UPDATE matched a row, not whether it assigned a non-NULL exam. -/
def pass1Step (exams : List Exam) (now : Int)
    (st : List Violation × Nat × Nat) (r : Violation) :
    List Violation × Nat × Nat :=
  let found := st.1.any (fun x => x.id = r.id && x.exam_id = none)
  let vs' := st.1.map (pass1Apply exams now r)
  if found then (vs', st.2.1 + 1, st.2.2) else (vs', st.2.1, st.2.2 + 1)

/-- Effect of one mismatch-repair UPDATE on one stored row: `SET student_id =
(SELECT student_id FROM exams WHERE id = v_record.exam_id) WHERE id =
v_record.id`. -/
def pass2Apply (exams : List Exam) (r x : Violation) : Violation :=
  if x.id = r.id then { x with student_id := examOwner exams r.exam_id }
  else x

/-- One iteration of the mismatch-repair loop: the UPDATE, then
`IF FOUND THEN v_fixed += 1` (no ELSE branch in pass 2). -/
def pass2Step (exams : List Exam) (st : List Violation × Nat × Nat)
    (r : Violation) : List Violation × Nat × Nat :=
  let found := st.1.any (fun x => x.id = r.id)
  let vs' := st.1.map (pass2Apply exams r)
  if found then (vs', st.2.1 + 1, st.2.2) else (vs', st.2.1, st.2.2)

/-- Stable insertion into a sorted list (auxiliary for `ORDER BY`). -/
def insertSorted (le : α → α → Bool) (x : α) : List α → List α
  | [] => [x]
  | y :: ys => if le x y then x :: y :: ys else y :: insertSorted le x ys

/-- Stable insertion sort, used to realize a cursor's `ORDER BY`. -/
def sortBy (le : α → α → Bool) : List α → List α
  | [] => []
  | x :: xs => insertSorted le x (sortBy le xs)

/-- Cursor of the backfill loop: `WHERE exam_id IS NULL AND student_id IS
NOT NULL ORDER BY timestamp DESC`. -/
def pass1Rows (vs : List Violation) : List Violation :=
  sortBy (fun a b => a.timestamp ≥ b.timestamp)
    (vs.filter (fun v => v.exam_id = none && v.student_id.isSome))

/-- Cursor of the mismatch-repair loop: both columns set and no matching
exam row. -/
def pass2Rows (exams : List Exam) (vs : List Violation) : List Violation :=
  vs.filter (fun v => v.exam_id.isSome && v.student_id.isSome &&
    !(examLinked exams v))

/-- `fix_violations_exam_links()`: two sequential passes over the violations
table, returning the updated state with the
`(violations_fixed, violations_skipped)` counters. -/
def fix_violations_exam_links (now : Int) (db : DB) : DB × Nat × Nat :=
  let r1 := (pass1Rows db.violations).foldl (pass1Step db.exams now)
    (db.violations, 0, 0)
  let r2 := (pass2Rows db.exams r1.1).foldl (pass2Step db.exams) r1
  ({ db with violations := r2.1 }, r2.2.1, r2.2.2)

/-- The violations table after pass 1, per stored row. -/
def pass1Table (now : Int) (db : DB) : List Violation :=
  db.violations.map (fun x =>
    (pass1Rows db.violations).foldl (fun x r => pass1Apply db.exams now r x) x)

/-- The violations table after both passes, per stored row. -/
def fixTable (now : Int) (db : DB) : List Violation :=
  (pass1Table now db).map (fun x =>
    (pass2Rows db.exams (pass1Table now db)).foldl
      (fun x r => pass2Apply db.exams r x) x)

/-! ### Aggregation View: `violations_by_exam_student` -/

/-- The violations aggregated into one exam's rollup row: the LEFT JOIN
condition `v.exam_id = e.id AND v.student_id = e.student_id`. -/
def rollupMatches (eid sid : Nat) (violations : List Violation) :
    List Violation :=
  violations.filter (fun v => v.exam_id = some eid && v.student_id = some sid)

/-- A row of the materialized view (the columns involved in the claims; the
`subject_code`/`subject_name` columns come from a LEFT JOIN on
`exam_templates` keyed by `exam_template_id` only and cannot affect the
violation aggregates, so they are omitted). -/
structure RollupRow where
  exam_id : Nat
  student_id : Nat
  student_name : String
  violation_count : Nat
  violation_types : List String
  first_violation : Option Int
  last_violation : Option Int
deriving DecidableEq, Repr

/-- `violations_by_exam_student`: exams INNER JOINed to students, LEFT JOINed
to violations on both link columns, grouped by exam. -/
def violations_by_exam_student (students : List Student) (exams : List Exam)
    (violations : List Violation) : List RollupRow :=
  exams.filterMap (fun e =>
    e.student_id.bind (fun sid =>
      (students.find? (fun s => s.id = sid)).map (fun s =>
        { exam_id := e.id
          student_id := sid
          student_name := s.name
          violation_count := (rollupMatches e.id sid violations).length
          violation_types :=
            ((rollupMatches e.id sid violations).map (·.violation_type)).dedup
          first_violation :=
            ((rollupMatches e.id sid violations).map (·.timestamp)).min?
          last_violation :=
            ((rollupMatches e.id sid violations).map (·.timestamp)).max? })))

/-! ### Tab-Liveness Detector: `checkSingleTab` in `CompatibilityCheck.tsx` -/

/-- Status of one compatibility-check step. -/
inductive CheckStatus where
  | running
  | success
  | error
deriving DecidableEq, Repr

/-- Environment of one `checkSingleTab` run: whether `BroadcastChannel`
exists, this tab's generated id, and the peer identifiers observed (via
channel messages or storage events) before the initial 3 s assessment. -/
structure TabCheckEnv where
  broadcastSupported : Bool
  tabId : String
  peerIds : List String
deriving DecidableEq, Repr

/-- Outcome of the single-tab check's initial assessment: unsupported
environments fail immediately (lines 390-396); otherwise the check fails
iff any identifier different from this tab's was observed
(`otherTabsDetected || activeTabs.size > 1`, lines 521-539). -/
def checkSingleTab (env : TabCheckEnv) : CheckStatus :=
  if env.broadcastSupported = false then CheckStatus.error
  else
    if (env.peerIds.filter (fun p => p ≠ env.tabId)).isEmpty then
      CheckStatus.success
    else CheckStatus.error

/-- The resources one `checkSingleTab` run acquires: four timers, the
initial-assessment timeout, the window `storage` listener, the broadcast
channel, and the shared `localStorage` slot. -/
structure DetectorResources where
  heartbeatTimer : Bool
  requestTimer : Bool
  storageTimer : Bool
  continuousTimer : Bool
  initialTimeout : Bool
  storageListener : Bool
  channelOpen : Bool
  storageSlot : Bool
deriving DecidableEq, Repr

/-- After a run starts (lines 410-518) every resource is held. -/
def acquireDetector : DetectorResources :=
  ⟨true, true, true, true, true, true, true, true⟩

/-- The stored `cleanup` closure (lines 565-581): clears every timer, removes
the storage listener and the shared slot, closes the channel. -/
def cleanupDetector (_ : DetectorResources) : DetectorResources :=
  ⟨false, false, false, false, false, false, false, false⟩

/-- The re-run path (lines 399-406): closes the previous channel and clears
`tabCheckIntervalRef` (the continuous-monitoring interval) — and nothing
else; the stored `cleanup` closure is not invoked. -/
def rerunCleanup (s : DetectorResources) : DetectorResources :=
  { s with channelOpen := false, continuousTimer := false }


section PickFirst

variable {α : Type} (p : α → α → Bool)

lemma foldl_pick_mem (xs : List α) (b : α) :
    xs.foldl (fun acc c => if p c acc then c else acc) b ∈ b :: xs := by
  induction xs generalizing b with
  | nil => simp
  | cons d xs ih =>
    simp only [List.foldl_cons]
    rcases List.mem_cons.mp (ih (if p d b then d else b)) with h | h
    · by_cases hd : p d b = true
      · simp only [hd, if_true] at h ⊢
        simp [h]
      · simp only [hd, if_false, Bool.false_eq_true] at h ⊢
        simp [h]
    · simp [List.mem_cons, h]

lemma foldl_pick_min
    (htrans : ∀ a b c, p a b = true → p b c = true → p a c = true)
    (hneg : ∀ a b c, p a c = true → p a b = true ∨ p b c = true)
    (hirr : ∀ a, p a a = false)
    (xs : List α) (b : α) :
    ∀ c ∈ b :: xs, p c (xs.foldl (fun acc c => if p c acc then c else acc) b) = false := by
  induction xs generalizing b with
  | nil =>
    intro c hc
    simp only [List.mem_singleton] at hc
    subst hc
    simpa using hirr c
  | cons d xs ih =>
    intro c hc
    simp only [List.foldl_cons]
    by_cases hd : p d b = true
    · have ih' := ih d
      simp only [hd, if_true]
      rcases List.mem_cons.mp hc with rfl | hc'
      · -- c = b was discarded in favour of d
        by_contra hbr
        have hbr' : p c (xs.foldl (fun acc c => if p c acc then c else acc) d) = true := by
          revert hbr; simp
        have := htrans d c _ hd hbr'
        have hdr := ih' d (List.mem_cons_self d xs)
        simp [this] at hdr
      · rcases List.mem_cons.mp hc' with rfl | hc''
        · exact ih' c (List.mem_cons_self c xs)
        · exact ih' c (List.mem_cons_of_mem d hc'')
    · have ih' := ih b
      simp only [hd, if_false]
      rcases List.mem_cons.mp hc with rfl | hc'
      · exact ih' c (List.mem_cons_self c xs)
      · rcases List.mem_cons.mp hc' with rfl | hc''
        · -- c = d was never selected: it neither precedes b nor the result
          by_contra hdr
          have hdr' : p c (xs.foldl (fun acc c => if p c acc then c else acc) b) = true := by
            revert hdr; simp
          rcases hneg c b _ hdr' with h1 | h2
          · simp [h1] at hd
          · have hbr := ih' b (List.mem_cons_self b xs)
            simp [h2] at hbr
        · exact ih' c (List.mem_cons_of_mem b hc'')

lemma pickFirst_mem {l : List α} {x : α} (h : pickFirst p l = some x) : x ∈ l := by
  cases l with
  | nil => simp [pickFirst] at h
  | cons a l =>
    simp only [pickFirst, Option.some.injEq] at h
    subst h
    exact foldl_pick_mem p l a

lemma pickFirst_min
    (htrans : ∀ a b c, p a b = true → p b c = true → p a c = true)
    (hneg : ∀ a b c, p a c = true → p a b = true ∨ p b c = true)
    (hirr : ∀ a, p a a = false)
    {l : List α} {x : α} (h : pickFirst p l = some x) :
    ∀ c ∈ l, p c x = false := by
  cases l with
  | nil => simp [pickFirst] at h
  | cons a l =>
    simp only [pickFirst, Option.some.injEq] at h
    subst h
    exact foldl_pick_min p htrans hneg hirr l a

lemma pickFirst_none_iff {l : List α} : pickFirst p l = none ↔ l = [] := by
  cases l <;> simp [pickFirst]

end PickFirst

lemma resolvePrecedes_trans (a b c : Exam) (h1 : resolvePrecedes a b = true)
    (h2 : resolvePrecedes b c = true) : resolvePrecedes a c = true := by
  unfold resolvePrecedes at *
  rcases ha : a.started_at with _ | x <;> rcases hb : b.started_at with _ | y <;>
    rcases hc : c.started_at with _ | z <;>
    simp only [ha, hb, hc] at h1 h2 ⊢ <;>
    (try split_ifs at *) <;> simp_all <;> omega

lemma resolvePrecedes_neg (a b c : Exam) (h : resolvePrecedes a c = true) :
    resolvePrecedes a b = true ∨ resolvePrecedes b c = true := by
  unfold resolvePrecedes at *
  rcases ha : a.started_at with _ | x <;> rcases hb : b.started_at with _ | y <;>
    rcases hc : c.started_at with _ | z <;>
    simp only [ha, hb, hc] at h ⊢ <;>
    (try split_ifs at *) <;> simp_all <;> omega

lemma resolvePrecedes_irrefl (a : Exam) : resolvePrecedes a a = false := by
  unfold resolvePrecedes
  rcases ha : a.started_at with _ | x <;> simp [ha]

/-- Whatever row the trigger commits satisfies the I1 shape against the exam
table it validated against. -/
lemma backfillPrecedes_trans (ts now : Int) (a b c : Exam)
    (h1 : backfillPrecedes ts now a b = true)
    (h2 : backfillPrecedes ts now b c = true) :
    backfillPrecedes ts now a c = true := by
  unfold backfillPrecedes at *
  by_cases hA : inWindow ts now a = true <;> by_cases hB : inWindow ts now b = true <;>
    by_cases hC : inWindow ts now c = true <;>
    rcases ha : a.started_at with _ | x <;> rcases hb : b.started_at with _ | y <;>
    rcases hc : c.started_at with _ | z <;>
    (try simp_all) <;> omega

lemma backfillPrecedes_neg (ts now : Int) (a b c : Exam)
    (h : backfillPrecedes ts now a c = true) :
    backfillPrecedes ts now a b = true ∨ backfillPrecedes ts now b c = true := by
  unfold backfillPrecedes at *
  by_cases hA : inWindow ts now a = true <;> by_cases hB : inWindow ts now b = true <;>
    by_cases hC : inWindow ts now c = true <;>
    rcases ha : a.started_at with _ | x <;> rcases hb : b.started_at with _ | y <;>
    rcases hc : c.started_at with _ | z <;>
    (try simp_all) <;> omega

lemma backfillPrecedes_irrefl (ts now : Int) (a : Exam) :
    backfillPrecedes ts now a a = false := by
  unfold backfillPrecedes
  rcases ha : a.started_at with _ | x <;> simp [ha]

lemma backfillTarget_of_nil_candidates (exams : List Exam) (sid : Option Nat)
    (ts now : Int) (h : backfillCandidates exams sid ts now = []) :
    backfillTarget exams sid ts now = none := by
  rw [backfillTarget, h]
  rfl

lemma backfillTarget_some_spec (exams : List Exam) (sid : Option Nat)
    (ts now : Int) (eid : Nat)
    (h : backfillTarget exams sid ts now = some eid) :
    ∃ e ∈ backfillCandidates exams sid ts now, e.id = eid ∧
      optEq e.student_id sid = true ∧
      ∀ c ∈ backfillCandidates exams sid ts now,
        backfillPrecedes ts now c e = false := by
  unfold backfillTarget at h
  rcases hpk : pickFirst (backfillPrecedes ts now)
      (backfillCandidates exams sid ts now) with _ | e
  · rw [hpk] at h
    cases h
  · rw [hpk] at h
    have heid : e.id = eid := by simpa using h
    have hmem := pickFirst_mem _ hpk
    have hmin := pickFirst_min _ (backfillPrecedes_trans ts now)
      (backfillPrecedes_neg ts now) (backfillPrecedes_irrefl ts now) hpk
    have hmem2 := hmem
    rw [backfillCandidates, List.mem_filter] at hmem2
    have hprop := hmem2.2
    simp only [Bool.and_eq_true] at hprop
    exact ⟨e, hmem, heid, hprop.1, hmin⟩

lemma backfillCandidates_sub (exams : List Exam) (sid : Option Nat)
    (ts now : Int) {e : Exam} (h : e ∈ backfillCandidates exams sid ts now) :
    e ∈ exams := by
  rw [backfillCandidates, List.mem_filter] at h
  exact h.1

lemma optEq_some_right {a : Option Nat} {y : Nat} :
    optEq a (some y) = true ↔ a = some y := by
  cases a <;> simp [optEq]

lemma validate_ok_I1 {exams : List Exam} {n v' : Violation}
    (h : validate_violation_exam_student_consistency exams n = Except.ok v') :
    ∀ eid sid, v'.exam_id = some eid → v'.student_id = some sid →
      ∃ e ∈ exams, e.id = eid ∧ e.student_id = some sid := by
  intro eid sid hE hS
  unfold validate_violation_exam_student_consistency at h
  rcases hne : n.exam_id with _ | neid <;> rcases hns : n.student_id with _ | nsid <;>
      simp only [hne, hns] at h
  · -- exam_id, student_id both absent: committed row unchanged, I1 vacuous
    cases h
    simp_all
  · -- only student_id present: exam_id filled from the reverse lookup
    cases h
    obtain rfl : nsid = sid := by
      have h' : some nsid = some sid := hS
      injection h'
    have hE' : (resolveExamId exams nsid).map (·.id) = some eid := hE
    rcases hr : resolveExamId exams nsid with _ | e
    · rw [hr] at hE'; cases hE'
    · rw [hr] at hE'
      obtain rfl : e.id = eid := by simpa using hE'
      have hmem : e ∈ resolveCandidates exams nsid := by
        apply pickFirst_mem resolvePrecedes
        simpa [resolveExamId] using hr
      rw [resolveCandidates] at hmem
      obtain ⟨hmem', hpred⟩ := List.mem_filter.mp hmem
      simp only [Bool.and_eq_true, decide_eq_true_eq] at hpred
      exact ⟨e, hmem', rfl, hpred.1⟩
  · -- only exam_id present: student_id filled from the exam row
    cases h
    obtain rfl : neid = eid := by
      have h' : some neid = some eid := hE
      injection h'
    have hS' : ((findExam exams neid).bind (·.student_id)) = some sid := hS
    rcases hf : findExam exams neid with _ | e
    · rw [hf] at hS'; cases hS'
    · rw [hf] at hS'
      have hS'' : e.student_id = some sid := hS'
      have hmem := List.mem_of_find?_eq_some hf
      have hid := List.find?_some hf
      simp only [decide_eq_true_eq] at hid
      exact ⟨e, hmem, hid, hS''⟩
  · -- both present: committed only when examMatches succeeded
    by_cases hm : examMatches exams neid nsid = true
    · simp only [hm, if_true] at h
      cases h
      simp only [examMatches, List.any_eq_true, Bool.and_eq_true,
        decide_eq_true_eq] at hm
      obtain ⟨e, he, hid, hsid⟩ := hm
      have h1 : neid = eid := by simp [hne] at hE; exact hE
      have h2 : nsid = sid := by simp [hns] at hS; exact hS
      subst h1; subst h2
      exact ⟨e, he, hid, hsid⟩
    · simp [hm] at h

/-- The trigger never changes a row's id. -/
lemma validate_ok_id {exams : List Exam} {n v' : Violation}
    (h : validate_violation_exam_student_consistency exams n = Except.ok v') :
    v'.id = n.id := by
  unfold validate_violation_exam_student_consistency at h
  rcases hne : n.exam_id with _ | neid <;> rcases hns : n.student_id with _ | nsid <;>
      simp only [hne, hns] at h
  · cases h; rfl
  · cases h; rfl
  · cases h; rfl
  · by_cases hm : examMatches exams neid nsid = true
    · simp only [hm, if_true] at h
      cases h
      rfl
    · simp [hm] at h

lemma backfillResolved_of_target_some (exams : List Exam) (sid : Nat)
    (ts now : Int) (eid : Nat)
    (h : backfillTarget exams (some sid) ts now = some eid) :
    backfillResolved exams sid ts now = some eid := by
  unfold backfillResolved
  rw [h]

lemma backfillResolved_of_target_none (exams : List Exam) (sid : Nat)
    (ts now : Int) (h : backfillTarget exams (some sid) ts now = none) :
    backfillResolved exams sid ts now =
      (resolveExamId exams sid).map (·.id) := by
  unfold backfillResolved
  rw [h]

/-- Whatever `exam_id` a backfilled row ends with names an exam owned by the
row's student — through either the ranked subquery or the trigger's legacy
branch. -/
lemma backfillResolved_consistent (exams : List Exam) (sid : Nat)
    (ts now : Int) (eid : Nat)
    (h : backfillResolved exams sid ts now = some eid) :
    ∃ e ∈ exams, e.id = eid ∧ e.student_id = some sid := by
  rcases htgt : backfillTarget exams (some sid) ts now with _ | eid'
  · rw [backfillResolved_of_target_none exams sid ts now htgt] at h
    rcases hr : resolveExamId exams sid with _ | e
    · rw [hr] at h
      cases h
    · rw [hr] at h
      obtain rfl : e.id = eid := by simpa using h
      have hmem : e ∈ resolveCandidates exams sid := by
        apply pickFirst_mem resolvePrecedes
        simpa [resolveExamId] using hr
      rw [resolveCandidates] at hmem
      obtain ⟨hmem', hpred⟩ := List.mem_filter.mp hmem
      simp only [Bool.and_eq_true, decide_eq_true_eq] at hpred
      exact ⟨e, hmem', rfl, hpred.1⟩
  · rw [backfillResolved_of_target_some exams sid ts now eid' htgt] at h
    obtain rfl : eid' = eid := by simpa using h
    obtain ⟨e, hce, heid, hsid', -⟩ :=
      backfillTarget_some_spec exams (some sid) ts now eid' htgt
    exact ⟨e, backfillCandidates_sub exams (some sid) ts now hce, heid,
      optEq_some_right.mp hsid'⟩

/-- One backfill UPDATE on its own cursor row: the subquery's candidate when
there is one (the trigger's consistency check passes on it), otherwise the
trigger's legacy resolution of the still-NULL `exam_id`. -/
lemma pass1Apply_hit (exams : List Exam) (now : Int) (x : Violation)
    (sid : Nat) (hx : x.exam_id = none) (hsid : x.student_id = some sid) :
    pass1Apply exams now x x =
      { x with exam_id := backfillResolved exams sid x.timestamp now } := by
  obtain ⟨xid, xex, xst, xty, xts⟩ := x
  simp only at hx hsid
  subst hx
  subst hsid
  unfold pass1Apply
  rw [if_pos (by simp)]
  dsimp only
  rcases htgt : backfillTarget exams (some sid) xts now with _ | eid
  · rw [backfillResolved_of_target_none exams sid xts now htgt]
    rfl
  · rw [backfillResolved_of_target_some exams sid xts now eid htgt]
    obtain ⟨e, hce, heid, hsid', -⟩ :=
      backfillTarget_some_spec exams (some sid) xts now eid htgt
    have hm : examMatches exams eid sid = true := by
      rw [examMatches, List.any_eq_true]
      refine ⟨e, backfillCandidates_sub exams (some sid) xts now hce, ?_⟩
      simp [heid, optEq_some_right.mp hsid']
    show (match validate_violation_exam_student_consistency exams
        ⟨xid, some eid, some sid, xty, xts⟩ with
      | Except.ok x' => x'
      | Except.error _ => ⟨xid, none, some sid, xty, xts⟩) = _
    unfold validate_violation_exam_student_consistency
    simp [hm]

/-- Each committed operation preserves invariant I1. -/
lemma I1_applyOp (db : DB) (op : Op) (h : I1 db) : I1 (applyOp db op) := by
  cases op with
  | createExam e =>
    simp only [applyOp]
    split
    · exact h
    · intro v hv eid sid hE hS
      obtain ⟨e', he', h1, h2⟩ := h v hv eid sid hE hS
      exact ⟨e', List.mem_cons_of_mem _ he', h1, h2⟩
  | updateExamLifecycle eid0 st sa ca =>
    intro v hv eid sid hE hS
    obtain ⟨e', he', h1, h2⟩ := h v hv eid sid hE hS
    by_cases hc : e'.id = eid0
    · exact ⟨{ e' with status := st, started_at := sa, completed_at := ca },
        List.mem_map.mpr ⟨e', he', by simp [hc]⟩, h1, h2⟩
    · exact ⟨e', List.mem_map.mpr ⟨e', he', by simp [hc]⟩, h1, h2⟩
  | insertViolation v0 =>
    simp only [applyOp]
    rcases hval : validate_violation_exam_student_consistency db.exams v0 with e | v'
    · exact h
    · intro v hv eid sid hE hS
      rcases List.mem_cons.mp hv with rfl | hv'
      · exact validate_ok_I1 hval eid sid hE hS
      · exact h v hv' eid sid hE hS
  | updateViolation v0 =>
    simp only [applyOp]
    rcases hval : validate_violation_exam_student_consistency db.exams v0 with e | v'
    · exact h
    · intro v hv eid sid hE hS
      obtain ⟨x, hx, hxeq⟩ := List.mem_map.mp hv
      by_cases hid : x.id = v0.id
      · simp only [hid, if_true] at hxeq
        subst hxeq
        exact validate_ok_I1 hval eid sid hE hS
      · simp only [hid, if_false] at hxeq
        subst hxeq
        exact h x hx eid sid hE hS

lemma I1_foldl (db : DB) (ops : List Op) (h : I1 db) :
    I1 (ops.foldl applyOp db) := by
  induction ops generalizing db with
  | nil => exact h
  | cons op ops ih => exact ih _ (I1_applyOp db op h)

/-- C1: every violation row committed through the linkage-validator trigger
satisfies invariant I1 post-commit: under any sequence of exam creations,
session-lifecycle updates and violation writes, a committed violation row
with both `exam_id` and `student_id` set points at an exam owned by that
student. -/
theorem trigger_keeps_I1_under_all_sequences (ops : List Op) :
    I1 (applyOps ops) := by
  apply I1_foldl
  intro v hv
  simp [DB.empty] at hv

/-- C2: a violation write carrying both `exam_id` and `student_id` that do
not match any exam row is rejected by the trigger with the linkage-mismatch
exception, and neither an insert nor an update commits anything: the
database is unchanged and the mismatched pair is never silently altered. -/
theorem mismatch_write_rejected (db : DB) (v : Violation) (eid sid : Nat)
    (hE : v.exam_id = some eid) (hS : v.student_id = some sid)
    (hmm : ¬ ∃ e ∈ db.exams, e.id = eid ∧ e.student_id = some sid) :
    validate_violation_exam_student_consistency db.exams v =
      Except.error (LinkageError.linkageMismatch sid eid) ∧
    applyOp db (Op.insertViolation v) = db ∧
    applyOp db (Op.updateViolation v) = db := by
  have hm : examMatches db.exams eid sid = false := by
    by_contra hcon
    have : examMatches db.exams eid sid = true := by
      revert hcon; cases examMatches db.exams eid sid <;> simp
    simp only [examMatches, List.any_eq_true, Bool.and_eq_true,
      decide_eq_true_eq] at this
    obtain ⟨e, he, h1, h2⟩ := this
    exact hmm ⟨e, he, h1, h2⟩
  have hv : validate_violation_exam_student_consistency db.exams v =
      Except.error (LinkageError.linkageMismatch sid eid) := by
    unfold validate_violation_exam_student_consistency
    simp [hE, hS, hm]
  exact ⟨hv, by simp [applyOp, hv], by simp [applyOp, hv]⟩

/-- C2 witness: a concrete mismatched write (exam 1 owned by student 1,
violation claiming student 2) is rejected and commits nothing. -/
theorem mismatch_write_rejected_witness :
    let e : Exam := ⟨1, some 1, ExamStatus.in_progress, some 0, none, 0⟩
    let v : Violation := ⟨10, some 1, some 2, "tab_switch", 5⟩
    let db : DB := ⟨[e], []⟩
    v.exam_id = some 1 ∧ v.student_id = some 2 ∧
    (¬ ∃ x ∈ db.exams, x.id = 1 ∧ x.student_id = some 2) ∧
    (validate_violation_exam_student_consistency db.exams v =
        Except.error (LinkageError.linkageMismatch 2 1) ∧
      applyOp db (Op.insertViolation v) = db ∧
      applyOp db (Op.updateViolation v) = db) :=
  ⟨rfl, rfl, by decide,
    mismatch_write_rejected _ _ 1 2 rfl rfl (by decide)⟩

/-- C6: a violation write with `exam_id` absent and `student_id` present is
never rejected; the trigger commits it with `exam_id` resolved to the
student's in-progress/completed exam that sorts first by `started_at`
descending (nulls last) then `created_at` descending, or with `exam_id`
still null if the student has no such exam. -/
theorem missing_examid_soft_resolved (db : DB) (v : Violation) (sid : Nat)
    (hE : v.exam_id = none) (hS : v.student_id = some sid) :
    validate_violation_exam_student_consistency db.exams v =
      Except.ok { v with exam_id := (resolveExamId db.exams sid).map (·.id) } ∧
    applyOp db (Op.insertViolation v) =
      { db with violations :=
          { v with exam_id := (resolveExamId db.exams sid).map (·.id) } ::
            db.violations } ∧
    (resolveCandidates db.exams sid = [] → (resolveExamId db.exams sid) = none) ∧
    ∀ e, resolveExamId db.exams sid = some e →
      e ∈ resolveCandidates db.exams sid ∧
      e.student_id = some sid ∧
      (e.status = ExamStatus.in_progress ∨ e.status = ExamStatus.completed) ∧
      ∀ c ∈ resolveCandidates db.exams sid, resolvePrecedes c e = false := by
  have hok : validate_violation_exam_student_consistency db.exams v =
      Except.ok { v with exam_id := (resolveExamId db.exams sid).map (·.id) } := by
    unfold validate_violation_exam_student_consistency
    simp [hE, hS]
  refine ⟨hok, by simp [applyOp, hok], ?_, ?_⟩
  · intro hnil
    rw [resolveExamId, hnil]
    simp [pickFirst]
  · intro e he
    have hmem : e ∈ resolveCandidates db.exams sid := by
      apply pickFirst_mem resolvePrecedes
      simpa [resolveExamId] using he
    have hmin : ∀ c ∈ resolveCandidates db.exams sid, resolvePrecedes c e = false := by
      apply pickFirst_min resolvePrecedes resolvePrecedes_trans resolvePrecedes_neg
        resolvePrecedes_irrefl
      simpa [resolveExamId] using he
    have hmem' := hmem
    rw [resolveCandidates] at hmem'
    obtain ⟨_, hpred⟩ := List.mem_filter.mp hmem'
    simp only [Bool.and_eq_true, Bool.or_eq_true, decide_eq_true_eq] at hpred
    exact ⟨hmem, hpred.1, hpred.2, hmin⟩


/-! ### Structural lemmas about the reconciliation folds -/

lemma insertSorted_perm (le : α → α → Bool) (x : α) (l : List α) :
    List.Perm (insertSorted le x l) (x :: l) := by
  induction l with
  | nil => rfl
  | cons y ys ih =>
    simp only [insertSorted]
    split
    · rfl
    · exact ((ih.cons y).trans (List.Perm.swap x y ys))

lemma sortBy_perm (le : α → α → Bool) (l : List α) :
    List.Perm (sortBy le l) l := by
  induction l with
  | nil => rfl
  | cons x xs ih => exact (insertSorted_perm le x (sortBy le xs)).trans (ih.cons x)

lemma mem_sortBy {le : α → α → Bool} {l : List α} {a : α} :
    a ∈ sortBy le l ↔ a ∈ l :=
  (sortBy_perm le l).mem_iff

lemma mem_pass1Rows {vs : List Violation} {v : Violation} :
    v ∈ pass1Rows vs ↔
      v ∈ vs ∧ v.exam_id = none ∧ v.student_id.isSome := by
  rw [pass1Rows, mem_sortBy, List.mem_filter]
  simp

lemma pass1Rows_ids_nodup {vs : List Violation}
    (h : (vs.map (·.id)).Nodup) : ((pass1Rows vs).map (·.id)).Nodup := by
  have hperm := (sortBy_perm (fun a b : Violation => a.timestamp ≥ b.timestamp)
    (vs.filter (fun v => v.exam_id = none && v.student_id.isSome))).map (·.id)
  rw [pass1Rows]
  rw [hperm.nodup_iff]
  exact List.Nodup.sublist ((List.filter_sublist vs).map (·.id)) h

lemma pass1Apply_id (exams : List Exam) (now : Int) (r x : Violation) :
    (pass1Apply exams now r x).id = x.id := by
  unfold pass1Apply
  split
  · rcases hval : validate_violation_exam_student_consistency exams
        { x with exam_id := backfillTarget exams r.student_id r.timestamp now }
      with e | x'
    · rfl
    · show x'.id = x.id
      have h' := validate_ok_id hval
      exact h'
  · rfl

lemma pass2Apply_id (exams : List Exam) (r x : Violation) :
    (pass2Apply exams r x).id = x.id := by
  unfold pass2Apply; split <;> rfl

lemma pass2Apply_exam_id (exams : List Exam) (r x : Violation) :
    (pass2Apply exams r x).exam_id = x.exam_id := by
  unfold pass2Apply; split <;> rfl

/-- Projecting the violations list out of the backfill loop: the counters do
not feed back into the stored rows. -/
lemma pass1_foldl_fst (exams : List Exam) (now : Int) (rows : List Violation) :
    ∀ (vs : List Violation) (f s : Nat),
      (rows.foldl (pass1Step exams now) (vs, f, s)).1 =
        rows.foldl (fun acc r => acc.map (pass1Apply exams now r)) vs := by
  induction rows with
  | nil => intro vs f s; rfl
  | cons r rows ih =>
    intro vs f s
    simp only [List.foldl_cons, pass1Step]
    by_cases hf : (vs.any fun x => x.id = r.id && x.exam_id = none) = true
    · rw [if_pos hf]; exact ih _ _ _
    · rw [if_neg hf]; exact ih _ _ _

lemma pass2_foldl_fst (exams : List Exam) (rows : List Violation) :
    ∀ (vs : List Violation) (f s : Nat),
      (rows.foldl (pass2Step exams) (vs, f, s)).1 =
        rows.foldl (fun acc r => acc.map (pass2Apply exams r)) vs := by
  induction rows with
  | nil => intro vs f s; rfl
  | cons r rows ih =>
    intro vs f s
    simp only [List.foldl_cons, pass2Step]
    by_cases hf : (vs.any fun x => x.id = r.id) = true
    · rw [if_pos hf]; exact ih _ _ _
    · rw [if_neg hf]; exact ih _ _ _

/-- A loop mapping a per-row update over the table equals mapping, per
stored row, the fold of the updates. -/
lemma foldl_map_comm {ρ α : Type} (g : ρ → α → α) (rows : List ρ) :
    ∀ vs : List α,
      rows.foldl (fun acc r => acc.map (g r)) vs =
        vs.map (fun x => rows.foldl (fun x r => g r x) x) := by
  induction rows with
  | nil => intro vs; simp
  | cons r rows ih =>
    intro vs
    simp only [List.foldl_cons]
    rw [ih, List.map_map]
    rfl

lemma pass1_inner_skip (exams : List Exam) (now : Int) (rows : List Violation)
    (x : Violation) (h : ∀ r ∈ rows, x.id ≠ r.id) :
    rows.foldl (fun x r => pass1Apply exams now r x) x = x := by
  induction rows with
  | nil => rfl
  | cons r rows ih =>
    simp only [List.foldl_cons]
    have hx : pass1Apply exams now r x = x := by
      unfold pass1Apply
      rw [if_neg]
      simp [h r (List.mem_cons_self r rows)]
    rw [hx]
    exact ih (fun r' hr' => h r' (List.mem_cons_of_mem r hr'))

lemma pass1_inner_notnull (exams : List Exam) (now : Int) (rows : List Violation)
    (x : Violation) (h : x.exam_id ≠ none) :
    rows.foldl (fun x r => pass1Apply exams now r x) x = x := by
  induction rows with
  | nil => rfl
  | cons r rows ih =>
    simp only [List.foldl_cons]
    have hx : pass1Apply exams now r x = x := by
      unfold pass1Apply
      rw [if_neg]
      simp [h]
    rw [hx]
    exact ih

lemma pass2_inner_skip (exams : List Exam) (rows : List Violation)
    (x : Violation) (h : ∀ r ∈ rows, x.id ≠ r.id) :
    rows.foldl (fun x r => pass2Apply exams r x) x = x := by
  induction rows with
  | nil => rfl
  | cons r rows ih =>
    simp only [List.foldl_cons]
    have hx : pass2Apply exams r x = x := by
      unfold pass2Apply
      rw [if_neg]
      simp [h r (List.mem_cons_self r rows)]
    rw [hx]
    exact ih (fun r' hr' => h r' (List.mem_cons_of_mem r hr'))

lemma nodup_ids_split {l1 l2 : List Violation} {v : Violation}
    (h : ((l1 ++ v :: l2).map (·.id)).Nodup) :
    (∀ r ∈ l1, v.id ≠ r.id) ∧ (∀ r ∈ l2, v.id ≠ r.id) := by
  rw [List.map_append, List.map_cons] at h
  rw [List.nodup_append] at h
  obtain ⟨_, h2, hdisj⟩ := h
  rw [List.nodup_cons] at h2
  constructor
  · intro r hr heq
    exact hdisj (List.mem_map.mpr ⟨r, hr, rfl⟩) (by simp [heq])
  · intro r hr heq
    exact h2.1 (List.mem_map.mpr ⟨r, hr, heq.symm⟩)

lemma pass1_inner_hit (exams : List Exam) (now : Int) (l1 l2 : List Violation)
    (x : Violation) (sid : Nat) (hx : x.exam_id = none)
    (hsid : x.student_id = some sid)
    (h1 : ∀ r ∈ l1, x.id ≠ r.id) (h2 : ∀ r ∈ l2, x.id ≠ r.id) :
    (l1 ++ x :: l2).foldl (fun x r => pass1Apply exams now r x) x =
      { x with exam_id := backfillResolved exams sid x.timestamp now } := by
  rw [List.foldl_append, pass1_inner_skip exams now l1 x h1]
  simp only [List.foldl_cons]
  rw [pass1Apply_hit exams now x sid hx hsid]
  exact pass1_inner_skip exams now l2 _ (by intro r hr; exact h2 r hr)

lemma pass2_inner_hit (exams : List Exam) (l1 l2 : List Violation)
    (r0 x : Violation) (hid : x.id = r0.id)
    (h1 : ∀ r ∈ l1, x.id ≠ r.id) (h2 : ∀ r ∈ l2, x.id ≠ r.id) :
    (l1 ++ r0 :: l2).foldl (fun x r => pass2Apply exams r x) x =
      { x with student_id := examOwner exams r0.exam_id } := by
  rw [List.foldl_append, pass2_inner_skip exams l1 x h1]
  simp only [List.foldl_cons]
  have hstep : pass2Apply exams r0 x =
      { x with student_id := examOwner exams r0.exam_id } := by
    unfold pass2Apply
    rw [if_pos hid]
  rw [hstep]
  exact pass2_inner_skip exams l2 _ (by intro r hr; exact h2 r hr)

lemma eq_of_mem_nodup_key {α : Type} {f : α → Nat} {vs : List α}
    (hnd : (vs.map f).Nodup) {a b : α}
    (ha : a ∈ vs) (hb : b ∈ vs) (hid : f a = f b) : a = b := by
  induction vs with
  | nil => cases ha
  | cons y t ih =>
    rw [List.map_cons, List.nodup_cons] at hnd
    rcases List.mem_cons.mp ha with rfl | ha' <;>
      rcases List.mem_cons.mp hb with rfl | hb'
    · rfl
    · exact absurd (List.mem_map.mpr ⟨b, hb', hid.symm⟩) hnd.1
    · exact absurd (List.mem_map.mpr ⟨a, ha', hid⟩) hnd.1
    · exact ih hnd.2 ha' hb'

/-- Pass 1 never changes a row's id, so the table's id column is unchanged. -/
lemma pass1_ids (exams : List Exam) (now : Int) (rows : List Violation) :
    ∀ vs : List Violation,
      ((rows.foldl (fun acc r => acc.map (pass1Apply exams now r)) vs).map (·.id)) =
        vs.map (·.id) := by
  induction rows with
  | nil => intro vs; rfl
  | cons r rows ih =>
    intro vs
    simp only [List.foldl_cons]
    rw [ih, List.map_map]
    congr 1
    funext x
    exact pass1Apply_id exams now r x

/-- `FOUND` in the backfill loop: every cursor row still matches its own
conditional UPDATE when its turn comes, so `v_fixed` counts every cursor row
and `v_skipped` never increments. -/
lemma pass1_counts (exams : List Exam) (now : Int) (rows : List Violation) :
    ∀ (vs : List Violation) (f s : Nat),
      (∀ r ∈ rows, ∃ x ∈ vs, x.id = r.id ∧ x.exam_id = none) →
      (rows.map (·.id)).Nodup →
      (rows.foldl (pass1Step exams now) (vs, f, s)).2 = (f + rows.length, s) := by
  induction rows with
  | nil => intro vs f s _ _; simp
  | cons r rows ih =>
    intro vs f s hwit hnd
    obtain ⟨x, hx, hxid, hxnone⟩ := hwit r (List.mem_cons_self r rows)
    have hfound : (vs.any fun y => y.id = r.id && y.exam_id = none) = true := by
      rw [List.any_eq_true]
      exact ⟨x, hx, by simp [hxid, hxnone]⟩
    simp only [List.foldl_cons, pass1Step]
    rw [if_pos hfound]
    rw [List.map_cons, List.nodup_cons] at hnd
    have hwit' : ∀ r' ∈ rows, ∃ y ∈ vs.map (pass1Apply exams now r),
        y.id = r'.id ∧ y.exam_id = none := by
      intro r' hr'
      obtain ⟨y, hy, hyid, hynone⟩ := hwit r' (List.mem_cons_of_mem r hr')
      have hne : ¬ (y.id = r.id) := by
        intro hcon
        exact hnd.1 (List.mem_map.mpr ⟨r', hr', by rw [← hyid, hcon]⟩)
      have hfix : pass1Apply exams now r y = y := by
        unfold pass1Apply
        rw [if_neg]
        simp [hne]
      exact ⟨y, List.mem_map.mpr ⟨y, hy, hfix⟩, hyid, hynone⟩
    rw [ih _ _ _ hwit' hnd.2]
    simp only [List.length_cons]
    congr 1
    omega

/-- `FOUND` in the mismatch-repair loop: the unconditional-by-id UPDATE always
matches its cursor row, so every pass-2 row increments `v_fixed`. -/
lemma pass2_counts (exams : List Exam) (rows : List Violation) :
    ∀ (vs : List Violation) (f s : Nat),
      (∀ r ∈ rows, ∃ x ∈ vs, x.id = r.id) →
      (rows.foldl (pass2Step exams) (vs, f, s)).2 = (f + rows.length, s) := by
  induction rows with
  | nil => intro vs f s _; simp
  | cons r rows ih =>
    intro vs f s hwit
    obtain ⟨x, hx, hxid⟩ := hwit r (List.mem_cons_self r rows)
    have hfound : (vs.any fun y => y.id = r.id) = true := by
      rw [List.any_eq_true]
      exact ⟨x, hx, by simp [hxid]⟩
    simp only [List.foldl_cons, pass2Step]
    rw [if_pos hfound]
    have hwit' : ∀ r' ∈ rows, ∃ y ∈ vs.map (pass2Apply exams r), y.id = r'.id := by
      intro r' hr'
      obtain ⟨y, hy, hyid⟩ := hwit r' (List.mem_cons_of_mem r hr')
      exact ⟨pass2Apply exams r y, List.mem_map.mpr ⟨y, hy, rfl⟩,
        by rw [pass2Apply_id, hyid]⟩
    rw [ih _ _ _ hwit']
    simp only [List.length_cons]
    congr 1
    omega


lemma pass2_foldl_fst' (exams : List Exam) (rows : List Violation)
    (st : List Violation × Nat × Nat) :
    (rows.foldl (pass2Step exams) st).1 =
      rows.foldl (fun acc r => acc.map (pass2Apply exams r)) st.1 := by
  obtain ⟨vs, f, s⟩ := st
  exact pass2_foldl_fst exams rows vs f s

lemma pass2_counts' (exams : List Exam) (rows : List Violation)
    (st : List Violation × Nat × Nat)
    (h : ∀ r ∈ rows, ∃ x ∈ st.1, x.id = r.id) :
    (rows.foldl (pass2Step exams) st).2 = (st.2.1 + rows.length, st.2.2) := by
  obtain ⟨vs, f, s⟩ := st
  exact pass2_counts exams rows vs f s h

/-- The state component of `fix_violations_exam_links`: exams untouched,
violations transformed row-by-row by the two passes. -/
lemma fix_violations_exam_links_state (now : Int) (db : DB) :
    (fix_violations_exam_links now db).1 = ⟨db.exams, fixTable now db⟩ := by
  unfold fix_violations_exam_links
  have h1 : ((pass1Rows db.violations).foldl (pass1Step db.exams now)
      (db.violations, 0, 0)).1 = pass1Table now db := by
    rw [pass1_foldl_fst, foldl_map_comm]
    rfl
  have h2 : ∀ st : List Violation × Nat × Nat, st.1 = pass1Table now db →
      ((pass2Rows db.exams st.1).foldl (pass2Step db.exams) st).1 =
        fixTable now db := by
    intro st hst
    rw [pass2_foldl_fst', hst, foldl_map_comm]
    rfl
  simp only
  rw [h2 _ h1]

lemma pass1_inner_id (exams : List Exam) (now : Int) (rows : List Violation) :
    ∀ x : Violation,
      (rows.foldl (fun x r => pass1Apply exams now r x) x).id = x.id := by
  induction rows with
  | nil => intro x; rfl
  | cons r rows ih =>
    intro x
    simp only [List.foldl_cons]
    rw [ih, pass1Apply_id]

lemma pass1Table_ids (now : Int) (db : DB) :
    (pass1Table now db).map (·.id) = db.violations.map (·.id) := by
  unfold pass1Table
  rw [List.map_map]
  exact List.map_congr_left (fun x _ => pass1_inner_id db.exams now _ x)

/-- Every cursor row of either pass still matches its own UPDATE when its
turn comes, so `violations_fixed` counts all cursor rows and
`violations_skipped` stays 0. -/
lemma fix_counts_eq (db : DB) (now : Int)
    (hnd : (db.violations.map (·.id)).Nodup) :
    (fix_violations_exam_links now db).2 =
      ((pass1Rows db.violations).length +
        (pass2Rows db.exams (pass1Table now db)).length, 0) := by
  unfold fix_violations_exam_links
  have hw1 : ∀ r ∈ pass1Rows db.violations,
      ∃ x ∈ db.violations, x.id = r.id ∧ x.exam_id = none := by
    intro r hr
    obtain ⟨h1, h2, _⟩ := mem_pass1Rows.mp hr
    exact ⟨r, h1, rfl, h2⟩
  have h1 := pass1_counts db.exams now (pass1Rows db.violations) db.violations
    0 0 hw1 (pass1Rows_ids_nodup hnd)
  have h1f : ((pass1Rows db.violations).foldl (pass1Step db.exams now)
      (db.violations, 0, 0)).1 = pass1Table now db := by
    rw [pass1_foldl_fst, foldl_map_comm]
    rfl
  set r1 := (pass1Rows db.violations).foldl (pass1Step db.exams now)
    (db.violations, 0, 0) with hr1
  have hw2 : ∀ r ∈ pass2Rows db.exams r1.1, ∃ x ∈ r1.1, x.id = r.id := by
    intro r hr
    rw [pass2Rows] at hr
    exact ⟨r, (List.mem_filter.mp hr).1, rfl⟩
  have h2 := pass2_counts' db.exams (pass2Rows db.exams r1.1) r1 hw2
  show ((pass2Rows db.exams r1.1).foldl (pass2Step db.exams) r1).2 = _
  rw [h2, h1f, h1]
  simp

/-- C9: `FOUND` reflects whether the conditional UPDATE matched a row, and
each cursor row always matches its own `WHERE id = .. AND exam_id IS NULL`
(resp. `WHERE id = ..`) condition; hence `violations_fixed` counts every
cursor row of both passes — even rows whose backfill subquery found no exam
and which stay NULL — and `violations_skipped` is 0 on every run. -/
theorem fix_counts_match_not_resolution (db : DB) (now : Int)
    (hnd : (db.violations.map (·.id)).Nodup) :
    (fix_violations_exam_links now db).2 =
      ((pass1Rows db.violations).length +
        (pass2Rows db.exams (pass1Table now db)).length, 0) :=
  fix_counts_eq db now hnd

/-- C3 fails on the code: a violation whose student has no exam at all is
re-processed and re-counted as `fixed` by every run, so a second run returns
`repaired = 1`, not `repaired = 0`; `skipped` is 0 both times (the intended
`ELSE v_skipped` branch is dead because the conditional UPDATE always matches
the cursor row).  The state itself is unchanged by both runs. -/
theorem fix_rerun_repairs_nonzero :
    fix_violations_exam_links 100
        ⟨[], [⟨1, none, some 7, "tab_switch", 0⟩]⟩ =
      (⟨[], [⟨1, none, some 7, "tab_switch", 0⟩]⟩, 1, 0) ∧
    fix_violations_exam_links 100
        (fix_violations_exam_links 100
          ⟨[], [⟨1, none, some 7, "tab_switch", 0⟩]⟩).1 =
      (⟨[], [⟨1, none, some 7, "tab_switch", 0⟩]⟩, 1, 0) :=
  ⟨rfl, rfl⟩

/-- C5: a violation whose two link fields are both set but point at an exam
owned by a different student is repaired by pass 2 so that `student_id`
becomes the exam's owner; its `exam_id` is never changed. -/
theorem mismatch_repaired_to_exam_owner (db : DB) (now : Int) (v : Violation)
    (hnd : (db.violations.map (·.id)).Nodup)
    (hnde : (db.exams.map (·.id)).Nodup)
    (hv : v ∈ db.violations) (eid sid : Nat)
    (hE : v.exam_id = some eid) (hS : v.student_id = some sid)
    (ex : Exam) (hex : findExam db.exams eid = some ex)
    (hso : ex.student_id ≠ some sid) :
    ∃ v' ∈ (fix_violations_exam_links now db).1.violations,
      v'.id = v.id ∧ v'.exam_id = some eid ∧ v'.student_id = ex.student_id := by
  have hlinked : examLinked db.exams v = false := by
    by_contra hcon
    have h : examLinked db.exams v = true := by
      revert hcon; cases examLinked db.exams v <;> simp
    rw [examLinked, List.any_eq_true] at h
    obtain ⟨e, he, hprop⟩ := h
    simp only [Bool.and_eq_true, decide_eq_true_eq] at hprop
    have heid : e.id = eid := by
      have h1 := hprop.1
      rw [hE] at h1
      exact Option.some.inj h1
    have hexmem := List.mem_of_find?_eq_some hex
    have hexid : ex.id = eid := by
      have := List.find?_some hex
      simpa using this
    have heq : e = ex := eq_of_mem_nodup_key hnde he hexmem (by rw [heid, hexid])
    subst heq
    have h2 := hprop.2
    rw [hS] at h2
    exact hso (optEq_some_right.mp h2)
  have hF : (pass1Rows db.violations).foldl
      (fun x r => pass1Apply db.exams now r x) v = v :=
    pass1_inner_notnull _ _ _ _ (by rw [hE]; simp)
  have hv1 : v ∈ pass1Table now db := by
    unfold pass1Table
    exact List.mem_map.mpr ⟨v, hv, hF⟩
  have hvrow : v ∈ pass2Rows db.exams (pass1Table now db) := by
    rw [pass2Rows, List.mem_filter]
    refine ⟨hv1, ?_⟩
    simp [hE, hS, hlinked]
  obtain ⟨l1, l2, hsplit⟩ := List.append_of_mem hvrow
  have hnd1t : ((pass1Table now db).map (·.id)).Nodup := by
    rw [pass1Table_ids]
    exact hnd
  have hnd2 : ((pass2Rows db.exams (pass1Table now db)).map (·.id)).Nodup := by
    rw [pass2Rows]
    exact List.Nodup.sublist
      ((List.filter_sublist (pass1Table now db)).map (·.id)) hnd1t
  rw [hsplit] at hnd2
  obtain ⟨hl1, hl2⟩ := nodup_ids_split hnd2
  have hG : (pass2Rows db.exams (pass1Table now db)).foldl
      (fun x r => pass2Apply db.exams r x) v =
      { v with student_id := examOwner db.exams v.exam_id } := by
    rw [hsplit]
    exact pass2_inner_hit db.exams l1 l2 v v rfl hl1 hl2
  have howner : examOwner db.exams v.exam_id = ex.student_id := by
    rw [hE]
    show (findExam db.exams eid).bind (fun x => x.student_id) = ex.student_id
    rw [hex]
    exact rfl
  refine ⟨{ v with student_id := examOwner db.exams v.exam_id }, ?_, rfl,
    hE, howner⟩
  rw [fix_violations_exam_links_state]
  show _ ∈ fixTable now db
  unfold fixTable
  exact List.mem_map.mpr ⟨v, hv1, hG⟩

/-- C5 witness: exam 1 is owned by student 1; a violation recorded with
`exam_id = 1`, `student_id = 2` ends with `student_id = 1` and the same
`exam_id`. -/
theorem mismatch_repaired_to_exam_owner_witness :
    (([(⟨5, some 1, some 2, "tab_switch", 10⟩ : Violation)].map (·.id)).Nodup) ∧
    (([(⟨1, some 1, ExamStatus.in_progress, some 0, none, 0⟩ : Exam)].map
      (·.id)).Nodup) ∧
    ((⟨5, some 1, some 2, "tab_switch", 10⟩ : Violation) ∈
      ([⟨5, some 1, some 2, "tab_switch", 10⟩] : List Violation)) ∧
    (findExam [⟨1, some 1, ExamStatus.in_progress, some 0, none, 0⟩] 1 =
      some ⟨1, some 1, ExamStatus.in_progress, some 0, none, 0⟩) ∧
    ((⟨1, some 1, ExamStatus.in_progress, some 0, none, 0⟩ : Exam).student_id ≠
      some 2) ∧
    ∃ v' ∈ (fix_violations_exam_links 50
        ⟨[⟨1, some 1, ExamStatus.in_progress, some 0, none, 0⟩],
         [⟨5, some 1, some 2, "tab_switch", 10⟩]⟩).1.violations,
      v'.id = 5 ∧ v'.exam_id = some 1 ∧
      v'.student_id = (⟨1, some 1, ExamStatus.in_progress, some 0, none, 0⟩ :
        Exam).student_id :=
  ⟨by decide, by decide, by decide, by decide, by decide,
    mismatch_repaired_to_exam_owner
      ⟨[⟨1, some 1, ExamStatus.in_progress, some 0, none, 0⟩],
       [⟨5, some 1, some 2, "tab_switch", 10⟩]⟩ 50
      ⟨5, some 1, some 2, "tab_switch", 10⟩
      (by decide) (by decide) (by decide) 1 2 rfl rfl
      ⟨1, some 1, ExamStatus.in_progress, some 0, none, 0⟩ (by decide)
      (by decide)⟩

/-- C4 as stated is false on the code.  The student's only exam has status
`abandoned` with a non-null `started_at` window missing the violation
timestamp.  Under the claim it is a rank-2 candidate (''all other exams''),
so the top candidate would be assigned; in the code it is no candidate of
the ranked subquery (the fallback disjunct requires `started_at IS NULL`),
and the trigger's legacy resolution that fires on the backfill UPDATE
filters on status `in_progress`/`completed`, so the row keeps `exam_id`
NULL — yet it is counted by `violations_fixed`, not `violations_skipped`.
The second conjunct refutes the skip-count clause directly: with no exams
at all the claim demands the row be counted as skipped, but the run
returns `(fixed, skipped) = (1, 0)`. -/
theorem backfill_fallback_scope_counterexample :
    ((fix_violations_exam_links 300
        ⟨[⟨1, some 7, ExamStatus.abandoned, some 100, some 200, 0⟩],
         [⟨1, none, some 7, "tab_switch", 0⟩]⟩).1.violations =
      [⟨1, none, some 7, "tab_switch", 0⟩] ∧
    (fix_violations_exam_links 300
        ⟨[⟨1, some 7, ExamStatus.abandoned, some 100, some 200, 0⟩],
         [⟨1, none, some 7, "tab_switch", 0⟩]⟩).2 = (1, 0)) ∧
    (fix_violations_exam_links 300
        ⟨[], [⟨1, none, some 7, "tab_switch", 0⟩]⟩).2 = (1, 0) :=
  ⟨⟨rfl, rfl⟩, rfl⟩

/-- C4 (amended): the backfill pass assigns, to each violation with NULL
`exam_id` and non-NULL `student_id`, the id computed by `backfillResolved`:
first the ranked subquery — candidates are the student's exams whose
`[started_at, completed_at ?? now]` window contains the violation timestamp
(rank 1), plus the student's NULL-`started_at` exam when it is also the
student's most-recent exam by `created_at` (rank 2); among candidates the
assigned one is first in the order (in-window rank before fallback rank,
then `started_at` descending with nulls last); exams with non-null
`started_at` outside the window are not subquery candidates — and, when
that subquery yields NULL, the legacy resolution of the BEFORE UPDATE
trigger that fires on the backfill UPDATE itself: the student's most
recently started `in_progress`/`completed` exam.  The row's `exam_id` stays
NULL only when both find nothing, and the row is still counted by
`violations_fixed`, never by `violations_skipped`. -/
theorem backfill_assigns_ranked_candidate (db : DB) (now : Int) (v : Violation)
    (sid : Nat) (hnd : (db.violations.map (·.id)).Nodup)
    (hv : v ∈ db.violations) (hE : v.exam_id = none)
    (hS : v.student_id = some sid) :
    ∃ v' ∈ (fix_violations_exam_links now db).1.violations,
      v'.id = v.id ∧ v'.student_id = v.student_id ∧
      v'.exam_id = backfillResolved db.exams sid v.timestamp now ∧
      (∀ eid, backfillTarget db.exams (some sid) v.timestamp now = some eid →
        v'.exam_id = some eid ∧
        ∃ e ∈ backfillCandidates db.exams (some sid) v.timestamp now,
          e.id = eid ∧
          ∀ c ∈ backfillCandidates db.exams (some sid) v.timestamp now,
            backfillPrecedes v.timestamp now c e = false) ∧
      (backfillTarget db.exams (some sid) v.timestamp now = none →
        v'.exam_id = (resolveExamId db.exams sid).map (·.id) ∧
        (resolveCandidates db.exams sid = [] → v'.exam_id = none)) ∧
      (fix_violations_exam_links now db).2.2 = 0 := by
  have hvrow : v ∈ pass1Rows db.violations :=
    mem_pass1Rows.mpr ⟨hv, hE, by rw [hS]; rfl⟩
  obtain ⟨l1, l2, hsplit⟩ := List.append_of_mem hvrow
  have hnd1 := pass1Rows_ids_nodup hnd
  rw [hsplit] at hnd1
  obtain ⟨hl1, hl2⟩ := nodup_ids_split hnd1
  set res := backfillResolved db.exams sid v.timestamp now with hresdef
  have hF : (pass1Rows db.violations).foldl
      (fun x r => pass1Apply db.exams now r x) v = { v with exam_id := res } := by
    rw [hsplit]
    exact pass1_inner_hit db.exams now l1 l2 v sid hE hS hl1 hl2
  have hv1 : ({ v with exam_id := res } : Violation) ∈ pass1Table now db := by
    unfold pass1Table
    exact List.mem_map.mpr ⟨v, hv, hF⟩
  have hnd1t : ((pass1Table now db).map (·.id)).Nodup := by
    rw [pass1Table_ids]
    exact hnd
  have hnot : ∀ r ∈ pass2Rows db.exams (pass1Table now db),
      ({ v with exam_id := res } : Violation).id ≠ r.id := by
    intro r hr heq
    have hr' := hr
    rw [pass2Rows, List.mem_filter] at hr'
    have hreq : r = { v with exam_id := res } :=
      eq_of_mem_nodup_key hnd1t hr'.1 hv1 heq.symm
    subst hreq
    have hpred := hr'.2
    simp only [Bool.and_eq_true, Bool.not_eq_true'] at hpred
    rcases hres : res with _ | eid
    · rw [hres] at hpred
      simp at hpred
    · obtain ⟨e, hee, heid, hesid⟩ := backfillResolved_consistent db.exams sid
        v.timestamp now eid (hresdef ▸ hres)
      have hlinked : examLinked db.exams
          ({ v with exam_id := res } : Violation) = true := by
        rw [examLinked, List.any_eq_true]
        refine ⟨e, hee, ?_⟩
        simp only [Bool.and_eq_true, decide_eq_true_eq]
        constructor
        · show some e.id = res
          rw [hres]
          exact congrArg _ heid
        · show optEq e.student_id v.student_id = true
          rw [hesid, hS]
          simp [optEq]
      rw [hlinked] at hpred
      simp at hpred
  have hG : (pass2Rows db.exams (pass1Table now db)).foldl
      (fun x r => pass2Apply db.exams r x) { v with exam_id := res } =
      { v with exam_id := res } :=
    pass2_inner_skip db.exams _ _ hnot
  refine ⟨{ v with exam_id := res }, ?_, rfl, rfl, rfl, ?_, ?_, ?_⟩
  · rw [fix_violations_exam_links_state]
    show _ ∈ fixTable now db
    unfold fixTable
    exact List.mem_map.mpr ⟨_, hv1, hG⟩
  · intro eid htgt
    refine ⟨?_, ?_⟩
    · show res = some eid
      rw [hresdef]
      exact backfillResolved_of_target_some db.exams sid v.timestamp now eid htgt
    · obtain ⟨e, hce, heid, -, hmin⟩ :=
        backfillTarget_some_spec db.exams (some sid) v.timestamp now eid htgt
      exact ⟨e, hce, heid, hmin⟩
  · intro htgt
    have hleg : res = (resolveExamId db.exams sid).map (·.id) := by
      rw [hresdef]
      exact backfillResolved_of_target_none db.exams sid v.timestamp now htgt
    refine ⟨hleg, ?_⟩
    intro hnil
    show res = none
    rw [hleg, resolveExamId, hnil]
    rfl
  · have hc := fix_counts_eq db now hnd
    rw [hc]

/-- C4 witness: the spec's tie-break scenario.  Exam A starts at T0 = 0 and
completes at T0+1h = 60; exam B starts at T0+2h = 120 and is open.  A
violation at T0+30m = 30 is backfilled to A (id 1), not B (id 2). -/
theorem backfill_assigns_ranked_candidate_witness :
    (([(⟨1, none, some 7, "tab_switch", 30⟩ : Violation)].map (·.id)).Nodup) ∧
    ((⟨1, none, some 7, "tab_switch", 30⟩ : Violation).exam_id = none) ∧
    ∃ v' ∈ (fix_violations_exam_links 200
        ⟨[⟨1, some 7, ExamStatus.completed, some 0, some 60, 0⟩,
          ⟨2, some 7, ExamStatus.in_progress, some 120, none, 1⟩],
         [⟨1, none, some 7, "tab_switch", 30⟩]⟩).1.violations,
      v'.id = 1 ∧ v'.exam_id = some 1 ∧ v'.student_id = some 7 := by
  refine ⟨by decide, rfl, ?_⟩
  obtain ⟨v', hmem, hid, hstu, hexm, -, -, -⟩ :=
    backfill_assigns_ranked_candidate
      ⟨[⟨1, some 7, ExamStatus.completed, some 0, some 60, 0⟩,
        ⟨2, some 7, ExamStatus.in_progress, some 120, none, 1⟩],
       [⟨1, none, some 7, "tab_switch", 30⟩]⟩ 200
      ⟨1, none, some 7, "tab_switch", 30⟩ 7
      (by decide) (by decide) rfl rfl
  refine ⟨v', hmem, hid, ?_, hstu⟩
  rw [hexm]
  rfl

/-- C9 witness: one violation with a student but no exams at all; the run
reports it as fixed (its conditional UPDATE matched) and skips nothing. -/
theorem fix_counts_match_not_resolution_witness :
    (([(⟨1, none, some 7, "tab_switch", 0⟩ : Violation)].map (·.id)).Nodup) ∧
    (fix_violations_exam_links 100
        ⟨[], [⟨1, none, some 7, "tab_switch", 0⟩]⟩).2 =
      ((pass1Rows [⟨1, none, some 7, "tab_switch", 0⟩]).length +
        (pass2Rows []
          (pass1Table 100 ⟨[], [⟨1, none, some 7, "tab_switch", 0⟩]⟩)).length,
        0) :=
  ⟨by decide, fix_counts_match_not_resolution
    ⟨[], [⟨1, none, some 7, "tab_switch", 0⟩]⟩ 100 (by decide)⟩


lemma violations_by_exam_student_row {students : List Student}
    {exams : List Exam} {violations : List Violation} {row : RollupRow}
    (h : row ∈ violations_by_exam_student students exams violations) :
    ∃ e ∈ exams, e.id = row.exam_id ∧ e.student_id = some row.student_id ∧
      row.violation_count =
        (rollupMatches row.exam_id row.student_id violations).length := by
  rw [violations_by_exam_student, List.mem_filterMap] at h
  obtain ⟨e, he, heq⟩ := h
  rcases hsid : e.student_id with _ | sid
  · rw [hsid] at heq
    cases heq
  · rw [hsid] at heq
    simp only [Option.some_bind] at heq
    rcases hfind : students.find? (fun s => s.id = sid) with _ | s
    · rw [hfind] at heq
      cases heq
    · rw [hfind] at heq
      simp only [Option.map_some'] at heq
      cases heq
      exact ⟨e, he, rfl, hsid, rfl⟩

/-- C10: every rollup row of `violations_by_exam_student` counts exactly the
violations matching both join columns; each counted violation satisfies
invariant I1 (its exam exists and is owned by its student), and a violation
whose `student_id` mismatches its exam's owner is aggregated into no row. -/
theorem aggregation_counts_only_I1_violations (students : List Student)
    (exams : List Exam) (violations : List Violation)
    (hnde : (exams.map (·.id)).Nodup) :
    (∀ row ∈ violations_by_exam_student students exams violations,
      row.violation_count =
        (rollupMatches row.exam_id row.student_id violations).length ∧
      ∀ w ∈ rollupMatches row.exam_id row.student_id violations,
        ∀ eid sid, w.exam_id = some eid → w.student_id = some sid →
          ∃ e ∈ exams, e.id = eid ∧ e.student_id = some sid) ∧
    ∀ w ∈ violations, ∀ eid sid ex, w.exam_id = some eid →
      w.student_id = some sid → findExam exams eid = some ex →
      ex.student_id ≠ some sid →
      ∀ row ∈ violations_by_exam_student students exams violations,
        w ∉ rollupMatches row.exam_id row.student_id violations := by
  constructor
  · intro row hrow
    obtain ⟨e, he, hid, hsid, hcount⟩ := violations_by_exam_student_row hrow
    refine ⟨hcount, ?_⟩
    intro w hw eid sid hweid hwsid
    rw [rollupMatches, List.mem_filter] at hw
    have hp := hw.2
    simp only [Bool.and_eq_true, decide_eq_true_eq] at hp
    have h1 : eid = row.exam_id := Option.some.inj (by rw [← hweid]; exact hp.1)
    have h2 : sid = row.student_id := Option.some.inj (by rw [← hwsid]; exact hp.2)
    refine ⟨e, he, ?_, ?_⟩
    · rw [h1]; exact hid
    · rw [h2]; exact hsid
  · intro w hw eid sid ex hweid hwsid hfind hneq row hrow hmem
    obtain ⟨e, he, hid, hsid, -⟩ := violations_by_exam_student_row hrow
    rw [rollupMatches, List.mem_filter] at hmem
    have hp := hmem.2
    simp only [Bool.and_eq_true, decide_eq_true_eq] at hp
    have h1 : eid = row.exam_id := Option.some.inj (by rw [← hweid]; exact hp.1)
    have h2 : sid = row.student_id := Option.some.inj (by rw [← hwsid]; exact hp.2)
    have hexmem := List.mem_of_find?_eq_some hfind
    have hexid : ex.id = eid := by
      have := List.find?_some hfind
      simpa using this
    have heqEX : e = ex := eq_of_mem_nodup_key hnde he hexmem
      (by rw [hid, hexid, h1])
    exact hneq (by rw [← heqEX, hsid, ← h2])

/-- C10 witness: exam 1 is owned by student 7; a violation recorded for exam
1 with `student_id = 8` appears in no rollup row. -/
theorem aggregation_counts_only_I1_violations_witness :
    (([(⟨1, some 7, ExamStatus.in_progress, some 0, none, 0⟩ : Exam)].map
      (·.id)).Nodup) ∧
    ∀ row ∈ violations_by_exam_student [⟨7, "Asha"⟩]
        [⟨1, some 7, ExamStatus.in_progress, some 0, none, 0⟩]
        [⟨3, some 1, some 7, "tab_switch", 4⟩,
         ⟨4, some 1, some 8, "tab_switch", 5⟩],
      (⟨4, some 1, some 8, "tab_switch", 5⟩ : Violation) ∉
        rollupMatches row.exam_id row.student_id
          [⟨3, some 1, some 7, "tab_switch", 4⟩,
           ⟨4, some 1, some 8, "tab_switch", 5⟩] := by
  refine ⟨by decide, ?_⟩
  intro row hrow
  exact (aggregation_counts_only_I1_violations [⟨7, "Asha"⟩]
      [⟨1, some 7, ExamStatus.in_progress, some 0, none, 0⟩]
      [⟨3, some 1, some 7, "tab_switch", 4⟩,
       ⟨4, some 1, some 8, "tab_switch", 5⟩] (by decide)).2
    ⟨4, some 1, some 8, "tab_switch", 5⟩ (by decide) 1 8
    ⟨1, some 7, ExamStatus.in_progress, some 0, none, 0⟩ rfl rfl rfl
    (by decide) row hrow

/-- C7 fails on the code: re-running `checkSingleTab` releases only the
channel and the continuous-monitoring interval of the previous run; its
heartbeat, request and storage intervals, its initial-assessment timeout and
its window `storage` listener all stay registered, contradicting both the
claim and the code's own comment that the stored cleanup `will be called on
unmount or when check is re-run`.  The full unmount cleanup does release
everything and is idempotent. -/
theorem rerun_leaks_previous_run_timers :
    (rerunCleanup acquireDetector).heartbeatTimer = true ∧
    (rerunCleanup acquireDetector).requestTimer = true ∧
    (rerunCleanup acquireDetector).storageTimer = true ∧
    (rerunCleanup acquireDetector).initialTimeout = true ∧
    (rerunCleanup acquireDetector).storageListener = true ∧
    (rerunCleanup acquireDetector).storageSlot = true ∧
    (rerunCleanup acquireDetector).channelOpen = false ∧
    cleanupDetector acquireDetector =
      ⟨false, false, false, false, false, false, false, false⟩ ∧
    cleanupDetector (cleanupDetector acquireDetector) =
      cleanupDetector acquireDetector := by
  decide

/-- C8: when `BroadcastChannel` is unavailable the single-tab check fails
closed: it reports an error, never a verified-single success, whatever was
or was not observed. -/
theorem detector_unsupported_fails_closed (env : TabCheckEnv)
    (h : env.broadcastSupported = false) :
    checkSingleTab env = CheckStatus.error ∧
    checkSingleTab env ≠ CheckStatus.success := by
  unfold checkSingleTab
  rw [if_pos h]
  exact ⟨rfl, by simp⟩

/-- C8 witness: a concrete unsupported environment reports an error. -/
theorem detector_unsupported_fails_closed_witness :
    (({ broadcastSupported := false, tabId := "tab-1", peerIds := [] } :
      TabCheckEnv).broadcastSupported = false) ∧
    (checkSingleTab
        { broadcastSupported := false, tabId := "tab-1", peerIds := [] } =
      CheckStatus.error ∧
    checkSingleTab
        { broadcastSupported := false, tabId := "tab-1", peerIds := [] } ≠
      CheckStatus.success) :=
  ⟨rfl, detector_unsupported_fails_closed
    { broadcastSupported := false, tabId := "tab-1", peerIds := [] } rfl⟩

/-- C6 witness: a student with a completed exam and a later in-progress exam;
the violation write commits and is resolved to the most recently started
session. -/
theorem missing_examid_soft_resolved_witness :
    let e1 : Exam := ⟨1, some 7, ExamStatus.completed, some 0, some 10, 0⟩
    let e2 : Exam := ⟨2, some 7, ExamStatus.in_progress, some 20, none, 1⟩
    let db : DB := ⟨[e1, e2], []⟩
    let v : Violation := ⟨99, none, some 7, "window_blur", 25⟩
    v.exam_id = none ∧ v.student_id = some 7 ∧
    (validate_violation_exam_student_consistency db.exams v =
        Except.ok { v with exam_id := (resolveExamId db.exams 7).map (·.id) } ∧
      applyOp db (Op.insertViolation v) =
        { db with violations :=
            { v with exam_id := (resolveExamId db.exams 7).map (·.id) } ::
              db.violations } ∧
      (resolveCandidates db.exams 7 = [] → (resolveExamId db.exams 7) = none) ∧
      ∀ e, resolveExamId db.exams 7 = some e →
        e ∈ resolveCandidates db.exams 7 ∧
        e.student_id = some 7 ∧
        (e.status = ExamStatus.in_progress ∨ e.status = ExamStatus.completed) ∧
        ∀ c ∈ resolveCandidates db.exams 7, resolvePrecedes c e = false) :=
  ⟨rfl, rfl, missing_examid_soft_resolved _ _ 7 rfl rfl⟩

end Exameye
